import Mathlib

/-!
Shallow embedding of the name-generation core of the comfyui-save-image-pro
repository: the sanitizers (`src/core/path_manager.py` `_clean_filename`,
`src/core/filename_generator.py` `_clean_filename`), the path-component
cleaner, the template resolver and name builder
(`src/core/filename_generator.py`), and the counter registry
(`src/core/counter_manager.py`).

Modelling conventions:
* Python `str` is Lean `String`; character-level operations work on `s.data`.
* Python `\d` and `str.isdigit` are modelled as ASCII digits, `str.upper`
  as ASCII upcasing, `str.strip()` as stripping the six ASCII whitespace
  characters; the claims under verification involve ASCII data only.
* Regular-expression `$` is modelled as strict end of string; Python also
  lets `$` match before one trailing newline, which is covered by the
  `pyMatch` wrapper below.  `.` is modelled as "any character except a
  newline", as in Python without `re.DOTALL`.
* The filesystem is a parameter `fs : String -> Option (List String)`
  mapping a directory to its listing (`none` = the directory does not
  exist).  `pathlib.Path(...).resolve()` is a parameter
  `resolve : String -> String`; it is only used to build cache keys.
* Python `float` values never occur in the verified claims; numeric
  scalars of the parameter tree are modelled as `Int`.
-/

/-- The forbidden characters of both sanitizers:
Windows-invalid characters replaced by the regex `[<>:"|?*\\]`. -/
def invalidChars : List Char := ['<', '>', ':', '"', '|', '?', '*', '\\']

/-- One step of `re.sub(invalid_chars, '_', value)`: a forbidden character
becomes an underscore, everything else is kept. -/
def replInv (c : Char) : Char := if c ∈ invalidChars then '_' else c

/-- The ASCII whitespace characters stripped by Python `str.strip()`. -/
def wsChars : List Char := [' ', '\t', '\n', '\r', '\x0b', '\x0c']

/-- The character set stripped by `str.strip(' .')`. -/
def dotSpace : List Char := [' ', '.']

/-- Strip characters of `cs` from the front of a list
(the left half of Python `str.strip(chars)`). -/
def lstrip (cs : List Char) (l : List Char) : List Char :=
  l.dropWhile (fun c => c ∈ cs)

/-- Strip characters of `cs` from the back of a list
(the right half of Python `str.strip(chars)`). -/
def rstrip (cs : List Char) (l : List Char) : List Char :=
  (l.reverse.dropWhile (fun c => c ∈ cs)).reverse

/-- Python `str.strip(chars)`: remove the characters of `cs` from both
ends.  `chars` is a set of characters, as in Python. -/
def stripBoth (cs : List Char) (l : List Char) : List Char :=
  rstrip cs (lstrip cs l)

/-- The Windows reserved device names checked by
`path_manager.PathManager._clean_filename`. -/
def reservedNames : List (List Char) :=
  ["CON", "PRN", "AUX", "NUL",
   "COM1", "COM2", "COM3", "COM4", "COM5", "COM6", "COM7", "COM8", "COM9",
   "LPT1", "LPT2", "LPT3", "LPT4", "LPT5", "LPT6", "LPT7", "LPT8",
   "LPT9"].map String.data

/-- `clean_name.upper() in reserved_names`. -/
def isReserved (l : List Char) : Bool :=
  (l.map Char.toUpper) ∈ reservedNames

/-- `path_manager.PathManager._clean_filename`, character-list level:
replace forbidden characters by `_`, strip leading/trailing spaces and
dots, prefix reserved names with `_`, truncate to 200 characters. -/
def pmClean (l : List Char) : List Char :=
  let r := l.map replInv
  let st := stripBoth dotSpace r
  let res := if isReserved st then '_' :: st else st
  if res.length > 200 then res.take 200 else res

/-- `path_manager.PathManager._clean_filename` on strings. -/
def pmCleanFilename (s : String) : String := String.mk (pmClean s.data)

/-- The model-file extensions removed by
`filename_generator.FileNameGenerator._clean_filename`
(`self.ext_to_remove`). -/
def extToRemove : List (List Char) :=
  [".safetensors", ".ckpt", ".pt", ".bin", ".pth"].map String.data

/-- `value.endswith(ext)` at the character-list level. -/
def endsWithL (suf l : List Char) : Bool :=
  decide (suf.length ≤ l.length) && decide (l.drop (l.length - suf.length) = suf)

/-- `value.startswith(p)` at the character-list level. -/
def startsWithL (p l : List Char) : Bool := decide (l.take p.length = p)

/-- Python `str.split(sep)` for a one-character separator: all pieces,
empty pieces included (`"".split(sep) == [""]`). -/
def splitOnChar (sep : Char) : List Char → List (List Char)
  | [] => [[]]
  | c :: rest =>
    let r := splitOnChar sep rest
    if c = sep then [] :: r
    else
      match r with
      | [] => [[c]]
      | h :: t => (c :: h) :: t

/-- Python `sep.join(parts)`. -/
def joinSep (sep : String) : List String → String
  | [] => ""
  | [x] => x
  | x :: xs => x ++ sep ++ joinSep sep xs

/-- The `for ext in self.ext_to_remove: if value.endswith(ext): ...; break`
loop: remove the first matching extension of the list, if any. -/
def dropModelExt : List (List Char) → List Char → List Char
  | [], l => l
  | e :: es, l => if endsWithL e l then l.take (l.length - e.length) else dropModelExt es l

/-- `filename_generator.FileNameGenerator._clean_filename`, character-list
level: remove one model-file extension, replace forbidden characters by
`_`, strip surrounding whitespace.  Note: unlike the path-manager
sanitizer, there is no reserved-name handling and no truncation. -/
def fngClean (l : List Char) : List Char :=
  stripBoth wsChars ((dropModelExt extToRemove l).map replInv)

/-- `filename_generator.FileNameGenerator._clean_filename` on strings. -/
def fngCleanFilename (s : String) : String := String.mk (fngClean s.data)

/-- The per-segment step of the loop of
`path_manager.PathManager._clean_path_component`: empty and `.` segments
are dropped, `..` passes through unchanged, any other segment is
sanitized and dropped when the sanitized form is empty. -/
def pathSegStep (p : String) : Option String :=
  if p = "" ∨ p = "." then none
  else if p = ".." then some ".."
  else
    let c := pmCleanFilename p
    if c = "" then none else some c

/-- `path_manager.PathManager._clean_path_component`: split on `/`, apply
`pathSegStep` to each part, join with `/`. -/
def cleanPathComponent (component : String) : String :=
  if component = "" then ""
  else joinSep "/" (((splitOnChar '/' component.data).map String.mk).filterMap pathSegStep)

/-- `path_manager.PathManager.create_output_path` without its filesystem
side effects (directory creation and the fall-back on creation failure
are I/O): the base directory joined with the cleaned subfolder. -/
def createOutputPathStr (base subfolder : String) : String :=
  if subfolder = "" then base
  else base ++ "/" ++ cleanPathComponent subfolder

/-! ### The parameter tree (`prompt`): a JSON-like value -/

mutual
/-- A node of the parameter tree: Python `None`/`bool`/number/`str`/
`list`/`dict` values as received by the filename generator. -/
inductive Json where
  | null : Json
  | bool (b : Bool) : Json
  | num (n : Int) : Json
  | str (s : String) : Json
  | arr (elems : JsonArr) : Json
  | obj (fields : JsonObj) : Json
/-- A Python list of tree nodes, in index order. -/
inductive JsonArr where
  | nil : JsonArr
  | cons (hd : Json) (tl : JsonArr) : JsonArr
/-- A Python dict of tree nodes: key/value pairs in insertion order
(keys are unique in a Python dict). -/
inductive JsonObj where
  | nil : JsonObj
  | cons (key : String) (val : Json) (tl : JsonObj) : JsonObj
end

mutual
/-- Python `repr` of a tree node (string-escaping inside quotes is not
reproduced; no verified claim hits that case). -/
def pyRepr : Json → String
  | .null => "None"
  | .bool true => "True"
  | .bool false => "False"
  | .num n => toString n
  | .str s => "\x27" ++ s ++ "\x27"
  | .arr xs => "[" ++ pyReprArr xs ++ "]"
  | .obj kvs => "\x7b" ++ pyReprObj kvs ++ "\x7d"
/-- `", ".join(repr(x) for x in xs)`. -/
def pyReprArr : JsonArr → String
  | .nil => ""
  | .cons x .nil => pyRepr x
  | .cons x tl => pyRepr x ++ ", " ++ pyReprArr tl
/-- `", ".join(repr(k) + ": " + repr(v) for k, v in kvs)`. -/
def pyReprObj : JsonObj → String
  | .nil => ""
  | .cons k v .nil => "\x27" ++ k ++ "\x27: " ++ pyRepr v
  | .cons k v tl => "\x27" ++ k ++ "\x27: " ++ pyRepr v ++ ", " ++ pyReprObj tl
end

/-- Python `str` of a tree node, as used by `str(obj[key])` and
`str(inputs[param_name])`. -/
def pyStr : Json → String
  | .str s => s
  | j => pyRepr j

/-- Python `obj[key]` on a dict (`key in obj` decided by `isSome`). -/
def lookupJ (k : String) : JsonObj → Option Json
  | .nil => none
  | .cons k2 v tl => if k2 = k then some v else lookupJ k tl

mutual
/-- `filename_generator.ParameterExtractor._find_keys_recursively`:
direct hit on the current dict first, otherwise recurse into dict values
(insertion order) and list elements (index order), first match wins. -/
def findJ (k : String) : Json → Option String
  | .obj kvs =>
    match lookupJ k kvs with
    | some v => some (pyStr v)
    | none => findObjVals k kvs
  | .arr xs => findArrElems k xs
  | _ => none
/-- The `for value in obj.values()` loop of the recursive search. -/
def findObjVals (k : String) : JsonObj → Option String
  | .nil => none
  | .cons _ v tl =>
    match findJ k v with
    | some r => some r
    | none => findObjVals k tl
/-- The `for item in obj` loop of the recursive search. -/
def findArrElems (k : String) : JsonArr → Option String
  | .nil => none
  | .cons x tl =>
    match findJ k x with
    | some r => some r
    | none => findArrElems k tl
end

mutual
/-- Spec side of claim C5, following the wording of the claim: the list
of all matches of the search in its visit order — on a dict, a direct
hit yields exactly that value and stops, otherwise the matches of the
values in insertion order; on a list, the matches of the elements in
index order.  The resolver must return the head of this list. -/
def matchesJ (k : String) : Json → List String
  | .obj kvs =>
    match lookupJ k kvs with
    | some v => [pyStr v]
    | none => matchesObjVals k kvs
  | .arr xs => matchesArrElems k xs
  | _ => []
/-- Matches of the dict values, concatenated in insertion order. -/
def matchesObjVals (k : String) : JsonObj → List String
  | .nil => []
  | .cons _ v tl => matchesJ k v ++ matchesObjVals k tl
/-- Matches of the list elements, concatenated in index order. -/
def matchesArrElems (k : String) : JsonArr → List String
  | .nil => []
  | .cons x tl => matchesJ k x ++ matchesArrElems k tl
end

/-- `filename_generator.ParameterExtractor._find_in_node`: look up
`prompt[node_id].inputs[param_name]`; any shape mismatch gives `none`
(the Python `KeyError`/`TypeError` handler). -/
def findInNode (prompt : Json) (nodeId paramName : String) : Option String :=
  match prompt with
  | .obj kvs =>
    match lookupJ nodeId kvs with
    | some (.obj nkvs) =>
      match lookupJ "inputs" nkvs with
      | some (.obj ikvs) => (lookupJ paramName ikvs).map pyStr
      | _ => none
    | _ => none
  | _ => none

/-- `filename_generator.ParameterExtractor._extract_single_parameter`
(without its per-object memo cache, which is transparent for a single
generation event).  `fmt` models `datetime.strftime` on the current
timestamp, `none` standing for a `ValueError`. -/
def extractSingleParameter (fmt : String → Option String) (prompt : Json)
    (key : String) : Option String :=
  if startsWithL ['%'] key.data then fmt key
  else if '.' ∈ key.data then
    match splitOnChar '.' key.data with
    | [nodeId, paramName] =>
      if nodeId ≠ [] ∧ nodeId.all Char.isDigit then
        findInNode prompt (String.mk nodeId) (String.mk paramName)
      else none
    | _ => none
  else findJ key prompt

/-! ### The name builder (`filename_generator.FileNameGenerator`) -/

/-- The tail of each loop iteration of `_generate_custom_name`:
`if value: if custom_name and not custom_name.endswith('/'):
custom_name += delim; custom_name += value`. -/
def appendTok (acc delim v : String) : String :=
  if v = "" then acc
  else if acc ≠ "" ∧ ¬ endsWithL ['/'] acc.data then acc ++ delim ++ v
  else acc ++ v

/-- One iteration of the `for key in keys` loop of
`_generate_custom_name`: date directives are formatted with the
timestamp, `./`/`../` markers switch the separator to `/`, other keys
resolve through the parameter extractor and are sanitized with the
generator `_clean_filename` method; an unresolved key leaves the accumulator
unchanged. -/
def nameStep (fmt : String → Option String) (prompt : Json) (delim : String)
    (acc key : String) : String :=
  if key = "" then acc
  else if startsWithL ['%'] key.data then
    match fmt key with
    | some v => appendTok acc delim v
    | none => acc
  else if startsWithL ['.', '/'] key.data then appendTok acc "/" (String.mk (key.data.drop 2))
  else if startsWithL ['.', '.', '/'] key.data then appendTok acc "/" (String.mk (key.data.drop 3))
  else
    match extractSingleParameter fmt prompt key with
    | some v => appendTok acc delim (fngCleanFilename v)
    | none => acc

/-- `filename_generator.FileNameGenerator._clean_final_name`:
`name.strip(delimiter).strip('.').strip('/').strip(delimiter)`, with the
default `"ComfyUI"` when the result is empty. -/
def cleanFinalName (name delim : String) : String :=
  let l1 := stripBoth delim.data name.data
  let l2 := stripBoth ['.'] l1
  let l3 := stripBoth ['/'] l2
  let l4 := stripBoth delim.data l3
  if l4 = [] then "ComfyUI" else String.mk l4

/-- `filename_generator.FileNameGenerator._generate_custom_name`: fold
the loop body over the keys starting from the prefix, then clean the
final name. -/
def genCustomName (keys : List String) (pfx delim : String) (prompt : Json)
    (fmt : String → Option String) : String :=
  cleanFinalName (keys.foldl (nameStep fmt prompt delim) pfx) delim

/-- The configuration fields of `config.SaveConfig` used by the verified
claims. -/
structure SaveConfig where
  filenamePfx : String
  filenameKeys : String
  delimiter : String
  outputFormat : String
  counterDigits : Nat
  counterPosition : String

/-- Python `str.strip()` (ASCII whitespace). -/
def pyStripStr (s : String) : String := String.mk (stripBoth wsChars s.data)

/-- `config.SaveConfig.get_filename_keys_list`: split the template on
commas, strip each key, drop empties. -/
def getFilenameKeysList (c : SaveConfig) : List String :=
  (((splitOnChar ',' c.filenameKeys.data).map String.mk).map pyStripStr).filter
    (fun k => k ≠ "")

/-- `filename_generator.FileNameGenerator.generate_filename`. -/
def generateFilename (cfg : SaveConfig) (prompt : Json)
    (fmt : String → Option String) : String :=
  genCustomName (getFilenameKeysList cfg) cfg.filenamePfx cfg.delimiter prompt fmt

/-- Fuel-driven helper of `natDigits` (the fuel keeps the recursion
structural; any fuel above the number itself is enough). -/
def natDigitsAux : Nat → Nat → List Char
  | 0, _ => []
  | Nat.succ fuel, n =>
    if n < 10 then [Char.ofNat (48 + n)]
    else natDigitsAux fuel (n / 10) ++ [Char.ofNat (48 + n % 10)]

/-- The decimal digits of a natural number, most significant first
(Python decimal rendering of a non-negative `int`). -/
def natDigits (n : Nat) : List Char := natDigitsAux (n + 1) n

/-- `f"{counter:0{digits}d}"` for a non-negative counter: zero-pad the
decimal rendering to width `d`. -/
def padCounter (d n : Nat) : String :=
  String.mk (List.replicate (d - (natDigits n).length) '0' ++ natDigits n)

/-- `filename_generator.FileNameGenerator.generate_full_filename`:
combine the generated base name with the zero-padded counter according
to the counter position and append the output extension. -/
def generateFullFilename (cfg : SaveConfig) (prompt : Json)
    (fmt : String → Option String) (counter : Nat) : String :=
  let base := generateFilename cfg prompt fmt
  let cstr := padCounter cfg.counterDigits counter
  (if cfg.counterPosition = "first" then cstr ++ cfg.delimiter ++ base
   else base ++ cfg.delimiter ++ cstr) ++ cfg.outputFormat

/-! ### The counter registry (`counter_manager.CounterManager`) -/

/-- `int(match.group(1))` for a group of decimal digits. -/
def digitsVal (ds : List Char) : Nat :=
  ds.foldl (fun a c => a * 10 + (c.toNat - 48)) 0

/-- The `.*` regions of the scan patterns may not contain a newline
(Python `.` without `re.DOTALL`). -/
def noNewline (l : List Char) : Bool := l.all (fun c => c ≠ '\n')

/-- Match the literal extension against the end of the name and return
what comes before it (the `ext$` tail of every scan pattern). -/
def extAt (ext f : List Char) : Option (List Char) :=
  if ext.length ≤ f.length ∧ f.drop (f.length - ext.length) = ext
  then some (f.take (f.length - ext.length)) else none

/-- `re.match` of `{prefix}.*-(\d{digits}){ext}$` (with the prefix
requirement only when `pfx` is given): the extension is pinned at the
end, the group is the run of exactly `digits` digits just before it,
preceded by a literal `-`; the prefix must fit before that `-`.
Returns the integer value of the group. -/
def lastCore (digits : Nat) (pfx : Option (List Char)) (ext f : List Char) : Option Nat :=
  match extAt ext f with
  | none => none
  | some rest =>
    let n := rest.length
    if digits + 1 ≤ n ∧ (rest.drop (n - digits)).all Char.isDigit ∧
        rest.get? (n - digits - 1) = some '-' then
      match pfx with
      | none =>
        if noNewline (rest.take (n - digits - 1)) then
          some (digitsVal (rest.drop (n - digits)))
        else none
      | some p =>
        if p.length + digits + 1 ≤ n ∧ rest.take p.length = p ∧
            noNewline ((rest.take (n - digits - 1)).drop p.length) then
          some (digitsVal (rest.drop (n - digits)))
        else none
    else none

/-- `re.match` of `(\d{digits})-{prefix}.*{ext}$` (prefix requirement
only when `pfx` is given): the group is the run of exactly `digits`
digits at the start, followed by a literal `-`, then the prefix, then
anything ending with the extension. -/
def firstCore (digits : Nat) (pfx : Option (List Char)) (ext f : List Char) : Option Nat :=
  if digits + 1 ≤ f.length ∧ (f.take digits).all Char.isDigit ∧
      f.get? digits = some '-' then
    let tl := f.drop (digits + 1)
    match pfx with
    | none =>
      match extAt ext tl with
      | some mid => if noNewline mid then some (digitsVal (f.take digits)) else none
      | none => none
    | some p =>
      if tl.take p.length = p then
        match extAt ext (tl.drop p.length) with
        | some mid => if noNewline mid then some (digitsVal (f.take digits)) else none
        | none => none
      else none
  else none

/-- Python `$` also matches just before one trailing newline: try the
core match on the whole name, then on the name without a final `\n`. -/
def pyMatch (core : List Char → Option Nat) (f : List Char) : Option Nat :=
  match core f with
  | some v => some v
  | none => if f.getLast? = some '\n' then core f.dropLast else none

/-- The per-file match of `counter_manager.CounterManager._find_max_counter`:
choose the pattern from `one_counter_per_folder` and `counter_position`
exactly as the source builds its regex (`'last'` tested first, anything
else treated as `'first'`). -/
def matchCounterFile (perFolder : Bool) (pos : String) (digits : Nat)
    (pfx ext : String) (f : String) : Option Nat :=
  let pfxOpt : Option (List Char) := if perFolder then none else some pfx.data
  if pos = "last" then pyMatch (lastCore digits pfxOpt ext.data) f.data
  else pyMatch (firstCore digits pfxOpt ext.data) f.data

/-- `counter_manager.CounterManager._find_max_counter`: 0 when the
directory does not exist, otherwise the maximum matched counter over
the directory listing (0 when nothing matches). -/
def findMaxCounter (fs : String → Option (List String)) (folder pfx : String)
    (digits : Nat) (pos ext : String) (perFolder : Bool) : Nat :=
  match fs folder with
  | none => 0
  | some files =>
    files.foldl
      (fun m f =>
        match matchCounterFile perFolder pos digits pfx ext f with
        | some c => max m c
        | none => m) 0

/-- The mutable state of `counter_manager.CounterManager`: the counter
cache (a Python dict: association list with insertion-order update
semantics) and the cache-enabled flag. -/
structure CounterManager where
  counterCache : List (String × Nat)
  cacheEnabled : Bool

/-- `CounterManager.__init__`: empty cache, caching enabled. -/
def initCM : CounterManager := ⟨[], true⟩

/-- Python dict assignment `cache[key] = v`: replace in place if the key
exists, else append. -/
def cacheInsert : List (String × Nat) → String → Nat → List (String × Nat)
  | [], k, v => [(k, v)]
  | (k2, v2) :: rest, k, v =>
    if k2 = k then (k, v) :: rest else (k2, v2) :: cacheInsert rest k v

/-- `counter_manager.CounterManager._generate_cache_key`. -/
def genCacheKey (resolve : String → String) (folder pfx pos ext : String)
    (perFolder : Bool) : String :=
  if perFolder then resolve folder ++ "|" ++ pos ++ "|" ++ ext ++ "|global"
  else resolve folder ++ "|" ++ pfx ++ "|" ++ pos ++ "|" ++ ext ++ "|prefix"

/-- `counter_manager.CounterManager.get_next_counter`: answer from the
cache when enabled and present (returning the cached value and storing
its successor), otherwise scan the directory for the maximum counter,
return `max + 1` and cache `max + 2`. -/
def getNextCounter (resolve : String → String) (fs : String → Option (List String))
    (cm : CounterManager) (folder pfx : String) (digits : Nat) (pos ext : String)
    (perFolder : Bool) : Nat × CounterManager :=
  let key := genCacheKey resolve folder pfx pos ext perFolder
  match cm.cacheEnabled, List.lookup key cm.counterCache with
  | true, some c =>
    (c, { cm with counterCache := cacheInsert cm.counterCache key (c + 1) })
  | true, none =>
    let nxt := findMaxCounter fs folder pfx digits pos ext perFolder + 1
    (nxt, { cm with counterCache := cacheInsert cm.counterCache key (nxt + 1) })
  | false, _ =>
    let nxt := findMaxCounter fs folder pfx digits pos ext perFolder + 1
    (nxt, cm)

/-- `n` successive `get_next_counter` calls with the same arguments:
the list of returned counters and the final state. -/
def runCalls (resolve : String → String) (fs : String → Option (List String))
    (folder pfx : String) (digits : Nat) (pos ext : String) (perFolder : Bool) :
    Nat → CounterManager → List Nat × CounterManager
  | 0, cm => ([], cm)
  | Nat.succ n, cm =>
    let r := getNextCounter resolve fs cm folder pfx digits pos ext perFolder
    let rest := runCalls resolve fs folder pfx digits pos ext perFolder n r.2
    (r.1 :: rest.1, rest.2)

/-! ### Concrete instances used by the claims -/

/-- A timestamp formatter for scenarios whose templates contain no date
directive (its value is never consulted there). -/
def noTime : String → Option String := fun _ => none

/-- The directory of the counter-scan-correctness scenario: one folder
`outdir` holding `foo-0007.png` and `foo-0003.png`. -/
def fsC1 : String → Option (List String) :=
  fun p => if p = "outdir" then some ["foo-0007.png", "foo-0003.png"] else none

/-- The parameter tree of end-to-end scenario 1. -/
def treeC6 : Json :=
  .obj (.cons "1" (.obj (.cons "inputs"
    (.obj (.cons "sampler_name" (.str "euler") (.cons "steps" (.num 20) .nil))) .nil)) .nil)

/-- The configuration of end-to-end scenario 1. -/
def cfgC6 : SaveConfig :=
  { filenamePfx := "Test", filenameKeys := "sampler_name, steps", delimiter := "_",
    outputFormat := ".webp", counterDigits := 4, counterPosition := "last" }

/-- A parameter tree holding the literal value `"CON"` under key `k`. -/
def treeC3 : Json := .obj (.cons "k" (.str "CON") .nil)

/-- A 201-character string: 199 `a`s, then `.`, then `x`.  Sanitizing it
truncates to 200 characters, leaving a trailing dot. -/
def badC2 : String := String.mk (List.replicate 199 'a' ++ ['.', 'x'])

/-- Spec side of claim C8, one segment, modelled from the spec sentence:
empty and `.` segments are dropped, `..` is passed through unchanged,
every other segment is sanitized; a segment whose sanitized form is
empty contributes nothing when the segments are joined into a path. -/
def specSegStep (p : String) : Option String :=
  if p = "" ∨ p = "." then none
  else if p = ".." then some ".."
  else
    let s := pmCleanFilename p
    if s = "" then none else some s

/-- Spec side of claim C8: the list of segments obtained by splitting
the folder specification on the path separator and applying
`specSegStep` to each part. -/
def specPathSegments (component : String) : List String :=
  ((splitOnChar '/' component.data).map String.mk).filterMap specSegStep

/-- The configuration refuting claim C10 as stated: the empty delimiter
(a legal configuration used by the repository preset named minimal)
with a prefix ending in `-`. -/
def cfgX10 : SaveConfig :=
  { filenamePfx := "foo-", filenameKeys := "", delimiter := "",
    outputFormat := ".webp", counterDigits := 4, counterPosition := "last" }

/-- A directory holding exactly one file the builder itself produced
under `cfgX10`: `foo-0001.webp`. -/
def fsX10 : String → Option (List String) :=
  fun p => if p = "d" then some [generateFullFilename cfgX10 .null noTime 1] else none

/-- A well-behaved configuration for the amended claim C10: delimiter
`_`, counter at the end. -/
def cfgW10 : SaveConfig :=
  { filenamePfx := "Test", filenameKeys := "", delimiter := "_",
    outputFormat := ".webp", counterDigits := 4, counterPosition := "last" }

/-- A directory holding exactly one file the builder itself produced
under `cfgW10`: `Test_0007.webp`. -/
def fsW10 : String → Option (List String) :=
  fun p => if p = "w" then some [generateFullFilename cfgW10 .null noTime 7] else none

/-- An existing but empty directory `w4` (for counter monotonicity). -/
def fsW4 : String → Option (List String) :=
  fun p => if p = "w4" then some [] else none

/-- The parameter tree of the unresolved-token witness: key `a` only. -/
def treeC7 : Json := .obj (.cons "a" (.str "x") .nil)

/-- No characters of `cs` at either end of the list (the fixed points of
`stripBoth cs`). -/
def noEdge (cs l : List Char) : Prop :=
  (∀ c, l.head? = some c → c ∉ cs) ∧ (∀ c, l.reverse.head? = some c → c ∉ cs)

/-! ### Theorems -/

/-- C1: in a directory containing exactly `foo-0007.png` and
`foo-0003.png`, the first `get_next_counter` call with `digits = 4`,
`position = last`, `one_counter_per_folder = false` (a per-prefix
counter), prefix `foo`, extension `.png` returns `8`, the maximum
matched counter plus one.  The path-normalization function of the cache
key is arbitrary because the first call starts from an empty cache. -/
theorem C1_first_scan_returns_8 (resolve : String → String) :
    (getNextCounter resolve fsC1 initCM "outdir" "foo" 4 "last" ".png" false).1 = 8 := rfl

/-- The loop of `_generate_custom_name` on the scenario-1 template
resolves `sampler_name` to `euler` and `steps` to `20`. -/
theorem c6_foldl (fmt : String → Option String) :
    List.foldl (nameStep fmt treeC6 "_") "Test" ["sampler_name", "steps"] =
      "Test_euler_20" := rfl

/-- The scenario-1 base name for an arbitrary timestamp formatter. -/
theorem c6_base (fmt : String → Option String) :
    genCustomName ["sampler_name", "steps"] "Test" "_" treeC6 fmt = "Test_euler_20" := by
  show cleanFinalName
      (List.foldl (nameStep fmt treeC6 "_") "Test" ["sampler_name", "steps"]) "_" =
    "Test_euler_20"
  rw [c6_foldl fmt]
  rfl

/-- C6: end-to-end scenario 1 — template `["sampler_name","steps"]`,
tree `{"1":{"inputs":{"sampler_name":"euler","steps":20}}}`, prefix
`Test`, delimiter `_` give base name `Test_euler_20`; with counter 1,
4 digits, position `last` and extension `.webp` the final filename is
`Test_euler_20_0001.webp` (counter zero-padded to the digit width,
placed after the base name, extension appended unconditionally).  The
timestamp formatter is arbitrary: the template has no date directive. -/
theorem C6_end_to_end (fmt : String → Option String) :
    genCustomName ["sampler_name", "steps"] "Test" "_" treeC6 fmt = "Test_euler_20" ∧
    generateFullFilename cfgC6 treeC6 fmt 1 = "Test_euler_20_0001.webp" := by
  refine ⟨c6_base fmt, ?_⟩
  have hfull : generateFullFilename cfgC6 treeC6 fmt 1 =
      generateFilename cfgC6 treeC6 fmt ++ "_" ++ "0001" ++ ".webp" := rfl
  have h2 : generateFilename cfgC6 treeC6 fmt =
      genCustomName ["sampler_name", "steps"] "Test" "_" treeC6 fmt := rfl
  rw [hfull, h2, c6_base fmt]
  rfl

/-- C3 counterexample: the sanitizer actually applied to literal values
by the name builder is `FileNameGenerator._clean_filename`, which has no
reserved-name handling: it maps `"CON"` to `"CON"`, not `"_CON"`, and
the built name for a tree value `"CON"` is `P_CON`, with no underscore
prefixed to the segment. -/
theorem C3_counterexample :
    genCustomName ["k"] "P" "_" treeC3 noTime = "P_CON" ∧
    fngCleanFilename "CON" = "CON" ∧ ("CON" : String) ≠ "_CON" := by
  refine ⟨rfl, by decide, by decide⟩

/-- C3 (amended): only the path-component sanitizer
(`PathManager._clean_filename`) performs the case-insensitive
reserved-name check and prefixes an underscore — `CON ↦ _CON`,
`con ↦ _con`; the sanitizer applied to literal values
(`FileNameGenerator._clean_filename`) leaves `CON` unchanged. -/
theorem C3_amended_reserved_names :
    pmCleanFilename "CON" = "_CON" ∧ pmCleanFilename "con" = "_con" ∧
    fngCleanFilename "CON" = "CON" := by
  refine ⟨by decide, by decide, by decide⟩

/-- C8: the path resolver splits a folder specification on the path
separator, drops empty and `.` segments, passes `..` through unchanged
(parent-directory escape is not blocked at this layer), sanitizes every
other segment with the path-manager sanitizer, and joins the resulting
segments (a segment whose sanitized form is empty contributes nothing
to the joined path).  `specPathSegments` is the segment pipeline
written from the spec sentence; the source function equals its join. -/
theorem C8_path_component_pipeline (c : String) :
    cleanPathComponent c = joinSep "/" (specPathSegments c) := by
  by_cases h : c = ""
  · subst h; rfl
  · simp only [cleanPathComponent, specPathSegments]
    rw [if_neg h]
    rfl

/-- Stripping from the front does not lengthen a list. -/
theorem length_lstrip_le (cs l : List Char) : (lstrip cs l).length ≤ l.length :=
  (List.dropWhile_suffix (l := l) (fun c => decide (c ∈ cs))).length_le

/-- Stripping from the back does not lengthen a list. -/
theorem length_rstrip_le (cs l : List Char) : (rstrip cs l).length ≤ l.length := by
  have := (List.dropWhile_suffix (l := l.reverse) (fun c => decide (c ∈ cs))).length_le
  simpa [rstrip] using this

/-- Stripping both ends does not lengthen a list. -/
theorem length_stripBoth_le (cs l : List Char) : (stripBoth cs l).length ≤ l.length :=
  le_trans (length_rstrip_le cs (lstrip cs l)) (length_lstrip_le cs l)

/-- Every element surviving a front strip was in the list. -/
theorem mem_lstrip {cs l : List Char} {x : Char} (h : x ∈ lstrip cs l) : x ∈ l := by
  exact (List.dropWhile_suffix (fun c => decide (c ∈ cs))).subset h

/-- Every element surviving a back strip was in the list. -/
theorem mem_rstrip {cs l : List Char} {x : Char} (h : x ∈ rstrip cs l) : x ∈ l := by
  have hx : x ∈ l.reverse.dropWhile (fun c => decide (c ∈ cs)) := by
    simpa [rstrip] using h
  simpa using (List.dropWhile_suffix (fun c => decide (c ∈ cs))).subset hx

/-- Every element surviving a both-ends strip was in the list. -/
theorem mem_stripBoth {cs l : List Char} {x : Char} (h : x ∈ stripBoth cs l) : x ∈ l :=
  mem_lstrip (mem_rstrip h)

/-- The head surviving a front strip is not a stripped character. -/
theorem head?_lstrip (cs : List Char) :
    ∀ l c, (lstrip cs l).head? = some c → c ∉ cs := by
  intro l
  induction l with
  | nil => intro c h; simp [lstrip] at h
  | cons a t ih =>
    intro c h
    by_cases ha : a ∈ cs
    · rw [lstrip, List.dropWhile_cons_of_pos (by simpa using ha)] at h
      exact ih c h
    · rw [lstrip, List.dropWhile_cons_of_neg (by simpa using ha)] at h
      simp only [List.head?_cons, Option.some.injEq] at h
      exact h ▸ ha

/-- A list whose head is not a stripped character is unchanged by a
front strip. -/
theorem lstrip_eq_self (cs : List Char) (l : List Char)
    (h : ∀ c, l.head? = some c → c ∉ cs) : lstrip cs l = l := by
  cases l with
  | nil => rfl
  | cons a t =>
    rw [lstrip, List.dropWhile_cons_of_neg]
    simpa using h a rfl

/-- The last element surviving a back strip (seen as the head of the
reversal) is not a stripped character. -/
theorem rev_head?_rstrip (cs l : List Char) (c : Char)
    (h : (rstrip cs l).reverse.head? = some c) : c ∉ cs := by
  rw [rstrip, List.reverse_reverse] at h
  exact head?_lstrip cs l.reverse c h

/-- A list whose last element is not a stripped character is unchanged
by a back strip. -/
theorem rstrip_eq_self (cs : List Char) (l : List Char)
    (h : ∀ c, l.reverse.head? = some c → c ∉ cs) : rstrip cs l = l := by
  have h2 : lstrip cs l.reverse = l.reverse := lstrip_eq_self cs l.reverse h
  rw [rstrip]
  rw [show l.reverse.dropWhile (fun c => decide (c ∈ cs)) = l.reverse from h2]
  exact List.reverse_reverse l

/-- The back strip is a take of the list: the list is the stripped part
followed by what was stripped. -/
theorem rstrip_append (cs l : List Char) :
    rstrip cs l ++ (l.reverse.takeWhile (fun c => decide (c ∈ cs))).reverse = l := by
  have h := List.takeWhile_append_dropWhile
    (p := fun c => decide (c ∈ cs)) (l := l.reverse)
  have h2 := congrArg List.reverse h
  rw [List.reverse_append, List.reverse_reverse] at h2
  exact h2

/-- The head surviving a back strip is the head of the list. -/
theorem head?_rstrip (cs l : List Char) (c : Char)
    (h : (rstrip cs l).head? = some c) : l.head? = some c := by
  have hne : rstrip cs l ≠ [] := by
    intro he
    rw [he] at h
    simp at h
  rw [← rstrip_append cs l, List.head?_append_of_ne_nil _ hne]
  exact h

/-- The result of a both-ends strip has no stripped character at either
end. -/
theorem stripBoth_noEdge (cs l : List Char) : noEdge cs (stripBoth cs l) := by
  constructor
  · intro c hc
    exact head?_lstrip cs l c (head?_rstrip cs (lstrip cs l) c hc)
  · intro c hc
    exact rev_head?_rstrip cs (lstrip cs l) c hc

/-- A list with no stripped character at either end is unchanged by a
both-ends strip. -/
theorem noEdge_stripBoth_eq {cs l : List Char} (h : noEdge cs l) :
    stripBoth cs l = l := by
  rw [stripBoth, lstrip_eq_self cs l h.1, rstrip_eq_self cs l h.2]

/-- Every reserved device name has at most 4 characters. -/
theorem reservedNames_short : ∀ w ∈ reservedNames, w.length ≤ 4 := by decide

/-- No reserved device name starts with an underscore. -/
theorem reservedNames_head : ∀ w ∈ reservedNames, w.head? ≠ some '_' := by decide

/-- A reserved string has at most 4 characters. -/
theorem length_of_isReserved {l : List Char} (h : isReserved l = true) :
    l.length ≤ 4 := by
  have hmem : (l.map Char.toUpper) ∈ reservedNames := by
    simpa [isReserved] using h
  have := reservedNames_short _ hmem
  simpa using this

/-- A string starting with an underscore is never reserved. -/
theorem isReserved_underscore (l : List Char) : isReserved ('_' :: l) = false := by
  simp only [isReserved, decide_eq_false_iff_not]
  intro hmem
  exact reservedNames_head _ hmem (by simp)

/-- Replacement output is never a forbidden character. -/
theorem replInv_not_invalid (c : Char) : replInv c ∉ invalidChars := by
  unfold replInv
  split
  · decide
  · assumption

/-- A character that is not forbidden is kept by the replacement. -/
theorem replInv_id_of_not {c : Char} (h : c ∉ invalidChars) : replInv c = c :=
  if_neg h

/-- A list without forbidden characters is unchanged by the
replacement pass. -/
theorem map_replInv_id {l : List Char} (h : ∀ c ∈ l, c ∉ invalidChars) :
    l.map replInv = l := by
  induction l with
  | nil => rfl
  | cons a t ih =>
    simp only [List.map_cons]
    rw [replInv_id_of_not (h a (by simp)), ih (fun c hc => h c (by simp [hc]))]

/-- For inputs of at most 200 characters, the truncation branch of the
path-manager sanitizer is dead: the result is the stripped replacement,
underscore-prefixed when reserved. -/
theorem pmClean_eq_res (l : List Char) (h : l.length ≤ 200) :
    pmClean l =
      if isReserved (stripBoth dotSpace (l.map replInv)) then
        '_' :: stripBoth dotSpace (l.map replInv)
      else stripBoth dotSpace (l.map replInv) := by
  have hstlen : (stripBoth dotSpace (l.map replInv)).length ≤ 200 := by
    calc (stripBoth dotSpace (l.map replInv)).length
        ≤ (l.map replInv).length := length_stripBoth_le _ _
      _ = l.length := l.length_map replInv
      _ ≤ 200 := h
  have notTrunc : ¬((if isReserved (stripBoth dotSpace (l.map replInv)) then
      '_' :: stripBoth dotSpace (l.map replInv)
    else stripBoth dotSpace (l.map replInv)).length > 200) := by
    by_cases hR : isReserved (stripBoth dotSpace (l.map replInv))
    · rw [if_pos hR]
      have := length_of_isReserved hR
      simp only [List.length_cons]
      omega
    · rw [if_neg hR]
      omega
  simp only [pmClean]
  rw [if_neg notTrunc]

/-- A second sanitizer pass is the identity on any list free of
forbidden characters and edge dots/spaces that is not reserved and not
longer than 200 characters. -/
theorem pmClean_second_pass (res : List Char)
    (hinv : ∀ c ∈ res, c ∉ invalidChars) (hedge : noEdge dotSpace res)
    (hres : isReserved res = false) (hlen : res.length ≤ 200) :
    pmClean res = res := by
  simp only [pmClean]
  rw [map_replInv_id hinv, noEdge_stripBoth_eq hedge, hres]
  simp only [Bool.false_eq_true, if_false]
  rw [if_neg (by omega)]

/-- Characters surviving the strip of the first pass are never
forbidden (they came out of the replacement pass). -/
theorem stripped_not_invalid (l : List Char) :
    ∀ c ∈ stripBoth dotSpace (l.map replInv), c ∉ invalidChars := by
  intro c hc
  have hcr : c ∈ l.map replInv := mem_stripBoth hc
  obtain ⟨c0, -, rfl⟩ := List.mem_map.mp hcr
  exact replInv_not_invalid c0

/-- Idempotence of the path-manager sanitizer on inputs of at most 200
characters (character-list level). -/
theorem pmClean_idem (l : List Char) (h : l.length ≤ 200) :
    pmClean (pmClean l) = pmClean l := by
  have hstlen : (stripBoth dotSpace (l.map replInv)).length ≤ 200 := by
    calc (stripBoth dotSpace (l.map replInv)).length
        ≤ (l.map replInv).length := length_stripBoth_le _ _
      _ = l.length := l.length_map replInv
      _ ≤ 200 := h
  have hstinv := stripped_not_invalid l
  have hstedge : noEdge dotSpace (stripBoth dotSpace (l.map replInv)) :=
    stripBoth_noEdge _ _
  rw [pmClean_eq_res l h]
  by_cases hR : isReserved (stripBoth dotSpace (l.map replInv))
  · rw [if_pos hR]
    apply pmClean_second_pass
    · intro c hc
      rcases List.mem_cons.mp hc with h1 | h2
      · subst h1; decide
      · exact hstinv c h2
    · constructor
      · intro c hc
        simp only [List.head?_cons, Option.some.injEq] at hc
        subst hc; decide
      · intro c hc
        cases hst : stripBoth dotSpace (l.map replInv) with
        | nil =>
          rw [hst] at hc
          simp only [List.reverse_cons, List.reverse_nil, List.nil_append,
            List.head?_cons, Option.some.injEq] at hc
          subst hc; decide
        | cons a t =>
          rw [hst, List.reverse_cons, List.head?_append_of_ne_nil _ (by simp)] at hc
          exact hstedge.2 c (by rw [hst]; exact hc)
    · exact isReserved_underscore _
    · simp only [List.length_cons]
      have := length_of_isReserved hR
      omega
  · rw [if_neg hR]
    exact pmClean_second_pass _ hstinv hstedge (by simpa using hR) hstlen

set_option maxRecDepth 8000 in
/-- C2 counterexample: the sanitizer is not idempotent on all strings.
On the 201-character string of 199 `a`s followed by `.x`, the first
pass truncates to 200 characters, leaving a trailing dot that the
second pass strips. -/
theorem C2_counterexample :
    pmCleanFilename (pmCleanFilename badC2) ≠ pmCleanFilename badC2 := by
  decide

/-- C2 (amended): the sanitizer is idempotent on every string of at
most 200 characters; for longer strings, truncation to 200 characters
happens after the whitespace-and-dot stripping and can expose a new
trailing dot or space, which a second application removes. -/
theorem C2_amended_idempotent (s : String) (h : s.length ≤ 200) :
    pmCleanFilename (pmCleanFilename s) = pmCleanFilename s :=
  congrArg String.mk (pmClean_idem s.data h)

/-- Witness for the amended C2 at the concrete string `ab`. -/
theorem C2_amended_idempotent_witness :
    ("ab" : String).length ≤ 200 ∧
    pmCleanFilename (pmCleanFilename "ab") = pmCleanFilename "ab" :=
  ⟨by decide, C2_amended_idempotent "ab" (by decide)⟩

mutual
/-- The recursive search returns the head of the match list (tree
case). -/
theorem findJ_eq_head (k : String) : (j : Json) → findJ k j = (matchesJ k j).head?
  | .null => rfl
  | .bool _ => rfl
  | .num _ => rfl
  | .str _ => rfl
  | .arr xs => by
    show findArrElems k xs = (matchesArrElems k xs).head?
    exact findArr_eq_head k xs
  | .obj kvs => by
    show (match lookupJ k kvs with
      | some v => some (pyStr v)
      | none => findObjVals k kvs) =
      (match lookupJ k kvs with
        | some v => [pyStr v]
        | none => matchesObjVals k kvs).head?
    cases lookupJ k kvs with
    | some v => rfl
    | none => exact findObj_eq_head k kvs

/-- The recursive search returns the head of the match list (dict
values case). -/
theorem findObj_eq_head (k : String) :
    (kvs : JsonObj) → findObjVals k kvs = (matchesObjVals k kvs).head?
  | .nil => rfl
  | .cons _ v tl => by
    show (match findJ k v with
      | some r => some r
      | none => findObjVals k tl) = (matchesJ k v ++ matchesObjVals k tl).head?
    rw [findJ_eq_head k v, findObj_eq_head k tl]
    cases matchesJ k v with
    | nil => simp
    | cons a l => simp

/-- The recursive search returns the head of the match list (list
elements case). -/
theorem findArr_eq_head (k : String) :
    (xs : JsonArr) → findArrElems k xs = (matchesArrElems k xs).head?
  | .nil => rfl
  | .cons x tl => by
    show (match findJ k x with
      | some r => some r
      | none => findArrElems k tl) = (matchesJ k x ++ matchesArrElems k tl).head?
    rw [findJ_eq_head k x, findArr_eq_head k tl]
    cases matchesJ k x with
    | nil => simp
    | cons a l => simp
end

/-- C5: literal-token resolution is a depth-first search with a
deterministic first-wins tie-break: on a dict that directly contains
the key the value is returned at once (as a string); otherwise the
search recurses into dict values in insertion order and list elements
in index order, and the result is the first match of that visit order —
the head of the full match list `matchesJ`. -/
theorem C5_first_match_wins (k : String) (j : Json) :
    findJ k j = (matchesJ k j).head? :=
  findJ_eq_head k j

/-- A token that is no date directive, no path marker and resolves to
nothing leaves the name accumulator untouched. -/
theorem nameStep_skip (fmt : String → Option String) (prompt : Json)
    (delim acc key : String)
    (h1 : startsWithL ['%'] key.data = false)
    (h2 : startsWithL ['.', '/'] key.data = false)
    (h3 : startsWithL ['.', '.', '/'] key.data = false)
    (h4 : extractSingleParameter fmt prompt key = none) :
    nameStep fmt prompt delim acc key = acc := by
  by_cases h0 : key = ""
  · simp [nameStep, h0]
  · simp [nameStep, h0, h1, h2, h3, h4]

/-- C7: a literal token absent from the parameter tree (and neither a
date directive nor a path marker; a malformed node reference also
resolves to nothing) is omitted entirely from the built name: it
contributes no delimiter and no placeholder text, and name generation
is total — no error reaches the caller.  Removing the token from the
template leaves the generated name unchanged. -/
theorem C7_unresolved_token_omitted (fmt : String → Option String) (prompt : Json)
    (pfx delim key : String) (keys1 keys2 : List String)
    (h1 : startsWithL ['%'] key.data = false)
    (h2 : startsWithL ['.', '/'] key.data = false)
    (h3 : startsWithL ['.', '.', '/'] key.data = false)
    (h4 : extractSingleParameter fmt prompt key = none) :
    genCustomName (keys1 ++ key :: keys2) pfx delim prompt fmt =
      genCustomName (keys1 ++ keys2) pfx delim prompt fmt := by
  unfold genCustomName
  rw [List.foldl_append, List.foldl_append, List.foldl_cons,
    nameStep_skip fmt prompt delim _ key h1 h2 h3 h4]

/-- Witness for C7: dropping the absent literal `missing` from the
template `["a", "missing"]` does not change the name built from the
tree `{"a": "x"}`. -/
theorem C7_unresolved_token_omitted_witness :
    startsWithL ['%'] ("missing" : String).data = false ∧
    startsWithL ['.', '/'] ("missing" : String).data = false ∧
    startsWithL ['.', '.', '/'] ("missing" : String).data = false ∧
    extractSingleParameter noTime treeC7 "missing" = none ∧
    genCustomName (["a"] ++ "missing" :: []) "P" "_" treeC7 noTime =
      genCustomName (["a"] ++ []) "P" "_" treeC7 noTime :=
  ⟨by decide, by decide, by decide, by decide,
    C7_unresolved_token_omitted noTime treeC7 "P" "_" "missing" ["a"] []
      (by decide) (by decide) (by decide) (by decide)⟩

/-- Looking up the only key of a one-entry cache. -/
theorem lookup_single (k : String) (v : Nat) : List.lookup k [(k, v)] = some v := by
  simp [List.lookup]

/-- Overwriting the only key of a one-entry cache. -/
theorem cacheInsert_single (k : String) (v w : Nat) :
    cacheInsert [(k, v)] k w = [(k, w)] := by
  simp [cacheInsert]

/-- A cached query returns the cached value and bumps it, without
consulting the filesystem. -/
theorem getNext_cached (resolve : String → String) (fs : String → Option (List String))
    (folder pfx : String) (digits : Nat) (pos ext : String) (perFolder : Bool)
    (cache : List (String × Nat)) (c : Nat)
    (h : List.lookup (genCacheKey resolve folder pfx pos ext perFolder) cache = some c) :
    getNextCounter resolve fs ⟨cache, true⟩ folder pfx digits pos ext perFolder =
      (c, ⟨cacheInsert cache (genCacheKey resolve folder pfx pos ext perFolder) (c + 1),
        true⟩) := by
  simp only [getNextCounter, h]

/-- Runs that start from a one-entry cache holding the scope key never
rescan: every call is answered from the cache, the results count up
from the cached value, whatever the filesystem contents. -/
theorem runCalls_cached (resolve : String → String) (fs : String → Option (List String))
    (folder pfx : String) (digits : Nat) (pos ext : String) (perFolder : Bool) :
    ∀ (n c : Nat),
      runCalls resolve fs folder pfx digits pos ext perFolder n
        ⟨[(genCacheKey resolve folder pfx pos ext perFolder, c)], true⟩ =
      (List.range' c n,
        ⟨[(genCacheKey resolve folder pfx pos ext perFolder, c + n)], true⟩) := by
  intro n
  induction n with
  | zero => intro c; simp [runCalls, List.range']
  | succ m ih =>
    intro c
    rw [runCalls]
    rw [getNext_cached resolve fs folder pfx digits pos ext perFolder _ c
      (lookup_single _ c)]
    rw [cacheInsert_single]
    rw [ih (c + 1)]
    have hc : c + 1 + m = c + (m + 1) := by omega
    rw [hc]
    rfl

/-- The first query on an empty or missing directory from a fresh
registry returns 1 and seeds the cache with 2. -/
theorem getNext_first_empty (resolve : String → String)
    (fs : String → Option (List String)) (folder pfx : String) (digits : Nat)
    (pos ext : String) (perFolder : Bool)
    (hfs : fs folder = none ∨ fs folder = some []) :
    getNextCounter resolve fs initCM folder pfx digits pos ext perFolder =
      (1, ⟨[(genCacheKey resolve folder pfx pos ext perFolder, 2)], true⟩) := by
  have hmax : findMaxCounter fs folder pfx digits pos ext perFolder = 0 := by
    rcases hfs with h | h <;> simp [findMaxCounter, h]
  have hdef : getNextCounter resolve fs initCM folder pfx digits pos ext perFolder =
      (findMaxCounter fs folder pfx digits pos ext perFolder + 1,
        ⟨[(genCacheKey resolve folder pfx pos ext perFolder,
          findMaxCounter fs folder pfx digits pos ext perFolder + 1 + 1)], true⟩) := rfl
  rw [hdef, hmax]

/-- C4: for a scope key whose directory has no entries (or does not
exist), successive `get_next_counter` calls return 1, 2, 3, …; only the
first call scans the directory — after it, the scope key is cached and
every further call is answered from the cache (returning the cached
value and bumping it), so the remaining run is identical under any
filesystem contents (no rescan). -/
theorem C4_counter_monotonic (resolve : String → String)
    (fs : String → Option (List String)) (folder pfx : String) (digits : Nat)
    (pos ext : String) (perFolder : Bool)
    (hfs : fs folder = none ∨ fs folder = some []) (n : Nat) :
    (runCalls resolve fs folder pfx digits pos ext perFolder n initCM).1 =
      List.range' 1 n ∧
    ∀ (fs2 : String → Option (List String)) (m : Nat),
      runCalls resolve fs2 folder pfx digits pos ext perFolder m
        (getNextCounter resolve fs initCM folder pfx digits pos ext perFolder).2 =
      runCalls resolve fs folder pfx digits pos ext perFolder m
        (getNextCounter resolve fs initCM folder pfx digits pos ext perFolder).2 := by
  constructor
  · cases n with
    | zero => rfl
    | succ m =>
      rw [runCalls]
      rw [getNext_first_empty resolve fs folder pfx digits pos ext perFolder hfs]
      rw [runCalls_cached resolve fs folder pfx digits pos ext perFolder m 2]
      rfl
  · intro fs2 m
    rw [getNext_first_empty resolve fs folder pfx digits pos ext perFolder hfs]
    rw [runCalls_cached resolve fs2 folder pfx digits pos ext perFolder m 2,
      runCalls_cached resolve fs folder pfx digits pos ext perFolder m 2]

/-- Witness for C4 at a concrete empty directory: three calls return
`[1, 2, 3]`, and after the first call a run of two further calls is the
same under a different filesystem. -/
theorem C4_counter_monotonic_witness :
    (fsW4 "w4" = none ∨ fsW4 "w4" = some []) ∧
    (runCalls id fsW4 "w4" "" 4 "last" ".webp" true 3 initCM).1 = List.range' 1 3 ∧
    runCalls id fsC1 "w4" "" 4 "last" ".webp" true 2
        (getNextCounter id fsW4 initCM "w4" "" 4 "last" ".webp" true).2 =
      runCalls id fsW4 "w4" "" 4 "last" ".webp" true 2
        (getNextCounter id fsW4 initCM "w4" "" 4 "last" ".webp" true).2 := by
  have hfs : fsW4 "w4" = none ∨ fsW4 "w4" = some [] := Or.inr rfl
  exact ⟨hfs, (C4_counter_monotonic id fsW4 "w4" "" 4 "last" ".webp" true hfs 3).1,
    (C4_counter_monotonic id fsW4 "w4" "" 4 "last" ".webp" true hfs 3).2 fsC1 2⟩

/-- The extension matcher strips exactly an appended extension. -/
theorem extAt_append (E X : List Char) : extAt E (X ++ E) = some X := by
  have hlen : (X ++ E).length - E.length = X.length := by
    simp [List.length_append]
  rw [extAt, if_pos]
  · rw [hlen, List.take_left]
  · constructor
    · simp [List.length_append]
    · rw [hlen, List.drop_left]

/-- When the core pattern fails and the name does not end in a newline,
the whole match fails. -/
theorem pyMatch_none (core : List Char → Option Nat) (f : List Char)
    (h1 : core f = none) (h2 : f.getLast? ≠ some '\n') : pyMatch core f = none := by
  rw [pyMatch, h1, if_neg h2]

/-- All decimal renderings consist of digits and are nonempty (for
enough fuel). -/
theorem natDigitsAux_spec :
    ∀ (fuel n : Nat), n < fuel →
      (natDigitsAux fuel n).all Char.isDigit = true ∧ natDigitsAux fuel n ≠ [] := by
  intro fuel
  induction fuel with
  | zero => intro n h; omega
  | succ f ih =>
    intro n h
    rw [natDigitsAux]
    by_cases h10 : n < 10
    · rw [if_pos h10]
      have hc : Char.isDigit (Char.ofNat (48 + n)) = true := by
        interval_cases n <;> decide
      exact ⟨by simp [hc], by simp⟩
    · rw [if_neg h10]
      have hrec := ih (n / 10) (by
        have hlt : n / 10 < n := Nat.div_lt_self (by omega) (by omega)
        omega)
      have hm : n % 10 < 10 := Nat.mod_lt _ (by omega)
      have hc : Char.isDigit (Char.ofNat (48 + n % 10)) = true := by
        revert hm
        generalize n % 10 = m
        intro hm
        interval_cases m <;> decide
      constructor
      · rw [List.all_append, hrec.1]
        simp [hc]
      · intro hemp
        exact hrec.2 (List.append_eq_nil.mp hemp).1

/-- The zero-padded counter is all digits. -/
theorem padCounter_digits (d n : Nat) :
    (padCounter d n).data.all Char.isDigit = true := by
  show (List.replicate (d - (natDigits n).length) '0' ++ natDigits n).all Char.isDigit = true
  rw [List.all_append]
  have h1 : (List.replicate (d - (natDigits n).length) '0').all Char.isDigit = true := by
    rw [List.all_eq_true]
    intro c hc
    rw [List.eq_of_mem_replicate hc]
    decide
  rw [h1]
  have h2 : (natDigits n).all Char.isDigit = true :=
    (natDigitsAux_spec (n + 1) n (by omega)).1
  rw [h2]
  rfl

/-- The zero-padded counter has at least the requested width. -/
theorem padCounter_len (d n : Nat) : d ≤ (padCounter d n).data.length := by
  show d ≤ (List.replicate (d - (natDigits n).length) '0' ++ natDigits n).length
  rw [List.length_append, List.length_replicate]
  omega

/-- A file of the shape `base ++ delim ++ counter ++ ext` is never
matched by the position-`last` scan pattern when the delimiter does not
end in `-` (the pattern requires a literal `-` right before the digit
group, but there the file has the last character of the delimiter, or a
digit when the counter is wider than the group). -/
theorem lastCore_produced_none (digits : Nat) (pOpt : Option (List Char))
    (B D C E : List Char) (hD : D ≠ []) (hDlast : D.getLast? ≠ some '-')
    (hC : C.all Char.isDigit = true) (hClen : digits ≤ C.length) :
    lastCore digits pOpt E (((B ++ D) ++ C) ++ E) = none := by
  unfold lastCore
  simp only [extAt_append]
  split
  case isTrue h =>
    exfalso
    obtain ⟨-, -, h3⟩ := h
    have hBD : 1 ≤ (B ++ D).length := by
      cases D with
      | nil => exact absurd rfl hD
      | cons a t => simp [List.length_append]; omega
    rcases hClen.eq_or_lt with hceq | hclt
    · have hj : ((B ++ D) ++ C).length - digits - 1 = (B ++ D).length - 1 := by
        simp only [List.length_append]
        omega
      rw [hj, List.get?_append (by omega)] at h3
      rw [← List.getLast?_eq_get? (B ++ D)] at h3
      rw [List.getLast?_append_of_ne_nil B hD] at h3
      exact hDlast h3
    · have hj : ((B ++ D) ++ C).length - digits - 1
          = (B ++ D).length + (C.length - digits - 1) := by
        simp only [List.length_append]
        omega
      rw [hj, List.get?_append_right (by omega)] at h3
      have hidx : (B ++ D).length + (C.length - digits - 1) - (B ++ D).length
          = C.length - digits - 1 := by omega
      rw [hidx] at h3
      exact absurd (List.all_eq_true.mp hC _ (List.get?_mem h3)) (by decide)
  case isFalse => rfl

/-- A file of the shape `counter ++ delim ++ base ++ ext` is never
matched by the position-`first` scan pattern when the delimiter does
not start with `-`. -/
theorem firstCore_produced_none (digits : Nat) (pOpt : Option (List Char))
    (B D C E : List Char) (hD : D ≠ []) (hDhead : D.head? ≠ some '-')
    (hC : C.all Char.isDigit = true) (hClen : digits ≤ C.length) :
    firstCore digits pOpt E (((C ++ D) ++ B) ++ E) = none := by
  unfold firstCore
  split
  case isTrue h =>
    exfalso
    obtain ⟨-, -, h3⟩ := h
    have hform : ((C ++ D) ++ B) ++ E = C ++ (D ++ (B ++ E)) := by
      simp [List.append_assoc]
    rw [hform] at h3
    rcases hClen.eq_or_lt with hceq | hclt
    · rw [List.get?_append_right (by omega)] at h3
      rw [show digits - C.length = 0 from by omega, List.get?_zero] at h3
      rw [List.head?_append_of_ne_nil D hD] at h3
      exact hDhead h3
    · rw [List.get?_append hclt] at h3
      exact absurd (List.all_eq_true.mp hC _ (List.get?_mem h3)) (by decide)
  case isFalse => rfl

/-- `String.append` acts as list append on the character data. -/
theorem strData_append (s t : String) : (s ++ t).data = s.data ++ t.data := rfl

/-- A builder-produced file never matches the scan pattern of the same
configuration when the position is `first`/`last`, the delimiter is
nonempty and its character adjacent to the counter is not `-`, and the
extension is nonempty and does not end in a newline. -/
theorem matchCounterFile_produced_none (cfg : SaveConfig) (prompt : Json)
    (fmt : String → Option String) (c : Nat) (pfx : String) (perFolder : Bool)
    (hpos : cfg.counterPosition = "first" ∨ cfg.counterPosition = "last")
    (hdelim : cfg.delimiter.data ≠ [])
    (hlast : cfg.counterPosition = "last" → cfg.delimiter.data.getLast? ≠ some '-')
    (hfirst : cfg.counterPosition = "first" → cfg.delimiter.data.head? ≠ some '-')
    (hext : cfg.outputFormat.data ≠ [])
    (hextNl : cfg.outputFormat.data.getLast? ≠ some '\n') :
    matchCounterFile perFolder cfg.counterPosition cfg.counterDigits pfx
      cfg.outputFormat (generateFullFilename cfg prompt fmt c) = none := by
  have hCdig := padCounter_digits cfg.counterDigits c
  have hClen := padCounter_len cfg.counterDigits c
  rcases hpos with hp | hp
  · have hfdata : (generateFullFilename cfg prompt fmt c).data =
        (((padCounter cfg.counterDigits c).data ++ cfg.delimiter.data)
          ++ (generateFilename cfg prompt fmt).data) ++ cfg.outputFormat.data := by
      simp only [generateFullFilename, hp, if_true, strData_append]
    simp only [matchCounterFile, hp]
    rw [if_neg (by decide : ¬("first" : String) = "last")]
    rw [hfdata]
    apply pyMatch_none
    · exact firstCore_produced_none cfg.counterDigits _ _ _ _ _ hdelim (hfirst hp)
        hCdig hClen
    · rw [List.getLast?_append_of_ne_nil _ hext]
      exact hextNl
  · have hfdata : (generateFullFilename cfg prompt fmt c).data =
        (((generateFilename cfg prompt fmt).data ++ cfg.delimiter.data)
          ++ (padCounter cfg.counterDigits c).data) ++ cfg.outputFormat.data := by
      simp only [generateFullFilename, hp]
      rw [if_neg (by decide : ¬("last" : String) = "first")]
      simp only [strData_append]
    simp only [matchCounterFile, hp, if_true]
    rw [hfdata]
    apply pyMatch_none
    · exact lastCore_produced_none cfg.counterDigits _ _ _ _ _ hdelim (hlast hp)
        hCdig hClen
    · rw [List.getLast?_append_of_ne_nil _ hext]
      exact hextNl

/-- A scan over files none of which match leaves the accumulator. -/
theorem foldl_match_none (perFolder : Bool) (pos : String) (digits : Nat)
    (pfx ext : String) :
    ∀ (files : List String) (m : Nat),
      (∀ f ∈ files, matchCounterFile perFolder pos digits pfx ext f = none) →
      files.foldl (fun m f =>
        match matchCounterFile perFolder pos digits pfx ext f with
        | some c => max m c
        | none => m) m = m := by
  intro files
  induction files with
  | nil => intro m h; rfl
  | cons a t ih =>
    intro m h
    rw [List.foldl_cons]
    have ha := h a (by simp)
    simp only [ha]
    exact ih m (fun f hf => h f (by simp [hf]))

/-- A nonempty string has nonempty character data. -/
theorem strNe_data {s : String} (h : s ≠ "") : s.data ≠ [] := by
  intro hd
  exact h (String.ext hd)

/-- C10 (amended): when the configured position is `first` or `last`,
the delimiter is nonempty and its character adjacent to the counter is
not `-` (its last character for `position = last`, its first for
`position = first`), and the extension is nonempty and does not end in
a newline, a first `get_next_counter` (fresh registry) in a directory
containing only files the builder itself produced under the same
configuration matches none of them and returns 1 — the scan pattern
demands a literal `-` before/after the digit group while the builder
joins with the configured delimiter. -/
theorem C10_scan_misses_produced_files (resolve : String → String)
    (fs : String → Option (List String)) (folder pfx : String) (perFolder : Bool)
    (cfg : SaveConfig) (files : List String)
    (hpos : cfg.counterPosition = "first" ∨ cfg.counterPosition = "last")
    (hdelim : cfg.delimiter ≠ "")
    (hlast : cfg.counterPosition = "last" → cfg.delimiter.data.getLast? ≠ some '-')
    (hfirst : cfg.counterPosition = "first" → cfg.delimiter.data.head? ≠ some '-')
    (hext : cfg.outputFormat ≠ "")
    (hextNl : cfg.outputFormat.data.getLast? ≠ some '\n')
    (hfs : fs folder = some files)
    (hprod : ∀ f ∈ files, ∃ prompt fmt c, f = generateFullFilename cfg prompt fmt c) :
    (getNextCounter resolve fs initCM folder pfx cfg.counterDigits
      cfg.counterPosition cfg.outputFormat perFolder).1 = 1 := by
  have hmatch : ∀ f ∈ files,
      matchCounterFile perFolder cfg.counterPosition cfg.counterDigits pfx
        cfg.outputFormat f = none := by
    intro f hf
    obtain ⟨prompt, fmt, c, rfl⟩ := hprod f hf
    exact matchCounterFile_produced_none cfg prompt fmt c pfx perFolder hpos
      (strNe_data hdelim) hlast hfirst (strNe_data hext) hextNl
  have hmax : findMaxCounter fs folder pfx cfg.counterDigits cfg.counterPosition
      cfg.outputFormat perFolder = 0 := by
    simp only [findMaxCounter, hfs]
    exact foldl_match_none perFolder cfg.counterPosition cfg.counterDigits pfx
      cfg.outputFormat files 0 hmatch
  have hdef : (getNextCounter resolve fs initCM folder pfx cfg.counterDigits
      cfg.counterPosition cfg.outputFormat perFolder).1 =
      findMaxCounter fs folder pfx cfg.counterDigits cfg.counterPosition
        cfg.outputFormat perFolder + 1 := rfl
  rw [hdef, hmax]

/-- Witness for the amended C10: under delimiter `_`, position `last`,
a directory holding only the builder-produced `Test_0007.webp` yields 1
on the first query. -/
theorem C10_scan_misses_produced_files_witness :
    (cfgW10.counterPosition = "first" ∨ cfgW10.counterPosition = "last") ∧
    cfgW10.delimiter ≠ "" ∧
    (getNextCounter id fsW10 initCM "w" "" cfgW10.counterDigits
      cfgW10.counterPosition cfgW10.outputFormat true).1 = 1 := by
  refine ⟨Or.inr rfl, by decide, ?_⟩
  apply C10_scan_misses_produced_files id fsW10 "w" "" true cfgW10
    [generateFullFilename cfgW10 Json.null noTime 7] (Or.inr rfl) (by decide)
    (fun _ => by decide) (fun h => absurd h (by decide)) (by decide) (by decide) rfl
  intro f hf
  rw [List.mem_singleton] at hf
  exact ⟨Json.null, noTime, 7, hf⟩

/-- C10 counterexample to the claim as stated: the empty delimiter is a
legal configuration other than `-` (used by the repository preset
named minimal), yet with prefix `foo-` the builder produces `foo-0001.webp`,
which the scan pattern does match, so the first `get_next_counter`
returns 2, not 1. -/
theorem C10_counterexample :
    cfgX10.delimiter ≠ "-" ∧
    generateFullFilename cfgX10 Json.null noTime 1 = "foo-0001.webp" ∧
    fsX10 "d" = some [generateFullFilename cfgX10 Json.null noTime 1] ∧
    (getNextCounter id fsX10 initCM "d" "" cfgX10.counterDigits
      cfgX10.counterPosition cfgX10.outputFormat true).1 = 2 ∧ (2 : Nat) ≠ 1 := by
  exact ⟨by decide, rfl, rfl, rfl, by decide⟩
